import Mathlib

/-!
Verification of the Operia OAuth integration and extraction pipeline.

This file gives a shallow embedding, in Lean 4, of the parts of the
Operia repository that the specification's claims are about:

* the state-token codec (`encryptUserId` / `decryptUserId` of
  `NotionService` and `GitHubService`) — AES-256-CBC with a random IV,
  hex encoded and joined by a dot;
* the AI extraction engine (`AIService.extractFromContent`) together
  with an executable model of JavaScript `JSON.parse`;
* the sync controllers' proposal-to-task materialization
  (`NotionController.sync` / `GitHubController.sync` plus
  `TasksService.createManyTasks`);
* `GitHubService.syncAndExtractContent` / `getIssues` with the
  installation-token fallback;
* `saveIntegration` (upsert of the Integration row) for both providers.

Conventions of the embedding:

* Machine-level byte strings are `List Nat` with every element `< 256`.
* JavaScript exceptions are modelled with `Option` / `Except`: a
  function that the source wraps in `try/catch` is total and returns
  the caught branch's value; a function that may throw returns
  `Except String _` with `.error` for the thrown case.
* Network calls, the database and the language model are parameters of
  the embedded functions (their outcomes are inputs), since the claims
  quantify over those outcomes.
* The AES-256 block permutation itself is abstracted as a parameter
  `E : List Nat → List Nat` (with its inverse `D`); the CBC chaining,
  PKCS#7 padding, hex transport encoding and the dot-delimited token
  format — where all of the codec's decision logic lives — are
  modelled concretely.  Node's `Buffer.from(s, 'hex')` semantics
  (case-insensitive pairs, decoding stops at the first invalid
  character, a trailing odd character is dropped) and JavaScript's
  `String.prototype.split` are modelled faithfully.
-/

namespace Operia

/-! ## Byte-string utilities: hex transport coding and JS string split -/

/-- Lower-case hex digit for a nibble, as produced by Node's
`buf.toString('hex')`: values below 10 map to `'0'..'9'`, the rest to
`'a'..'f'`. -/
def hexDigitChar (n : Nat) : Char :=
  if n < 10 then Char.ofNat (48 + n) else Char.ofNat (87 + n)

/-- Value of a hex digit accepted by Node's `Buffer.from(_, 'hex')`:
both lower- and upper-case letters are accepted. -/
def hexVal (c : Char) : Option Nat :=
  if 48 ≤ c.toNat ∧ c.toNat ≤ 57 then some (c.toNat - 48)
  else if 97 ≤ c.toNat ∧ c.toNat ≤ 102 then some (c.toNat - 87)
  else if 65 ≤ c.toNat ∧ c.toNat ≤ 70 then some (c.toNat - 55)
  else none

/-- `buf.toString('hex')`: two lower-case hex digits per byte. -/
def hexEncode : List Nat → List Char
  | [] => []
  | b :: bs => hexDigitChar (b / 16) :: hexDigitChar (b % 16) :: hexEncode bs

/-- Node's `Buffer.from(s, 'hex')`: bytes are decoded pairwise; decoding
stops at the first pair containing a non-hex character, and a trailing
lone character is dropped. -/
def nodeHexDecode : List Char → List Nat
  | c1 :: c2 :: rest =>
    match hexVal c1, hexVal c2 with
    | some a, some b => (16 * a + b) :: nodeHexDecode rest
    | _, _ => []
  | _ => []

/-- JavaScript `s.split(sep)` for a one-character separator: splits at
every occurrence; always returns at least one (possibly empty) part. -/
def jsSplit (sep : Char) : List Char → List (List Char)
  | [] => [[]]
  | c :: cs =>
    if c = sep then [] :: jsSplit sep cs
    else
      match jsSplit sep cs with
      | [] => [[c]]
      | h :: t => (c :: h) :: t

/-! ## CBC mode with PKCS#7 padding over an abstract 16-byte block cipher -/

/-- Pointwise XOR of two byte strings (CBC chaining step). -/
def xorBytes (a b : List Nat) : List Nat := List.zipWith (· ^^^ ·) a b

/-- Structural worker for `chunk16`: the fuel only bounds the number of
blocks and is irrelevant once it is at least the list length. -/
def chunk16Go : Nat → List Nat → List (List Nat)
  | 0, _ => []
  | fuel + 1, l => if l = [] then [] else l.take 16 :: chunk16Go fuel (l.drop 16)

/-- Split a byte string into 16-byte blocks (the final block may be
shorter if the length is not a multiple of 16). -/
def chunk16 (l : List Nat) : List (List Nat) := chunk16Go l.length l

/-- PKCS#7 padding, as applied by OpenSSL inside `cipher.final()` for
aes-256-cbc: append `p` copies of the byte `p`, where
`p = 16 - len % 16` (always between 1 and 16). -/
def pkcs7Pad (l : List Nat) : List Nat :=
  l ++ List.replicate (16 - l.length % 16) (16 - l.length % 16)

/-- PKCS#7 unpadding, as checked by OpenSSL inside `decipher.final()`:
the last byte `p` must satisfy `1 ≤ p ≤ 16` and the last `p` bytes must
all equal `p`; otherwise decryption throws (modelled as `none`). -/
def pkcs7Unpad (l : List Nat) : Option (List Nat) :=
  match l.getLast? with
  | none => none
  | some p =>
    if p = 0 ∨ 16 < p then none
    else if l.drop (l.length - p) = List.replicate p p then
      some (l.take (l.length - p))
    else none

/-- CBC encryption over a list of 16-byte plaintext blocks with block
cipher `E`: each block is XORed with the previous ciphertext block (or
the IV) before being enciphered. -/
def cbcEncBlocks (E : List Nat → List Nat) : List Nat → List (List Nat) → List (List Nat)
  | _, [] => []
  | iv, b :: bs => E (xorBytes iv b) :: cbcEncBlocks E (E (xorBytes iv b)) bs

/-- CBC decryption over a list of ciphertext blocks with the inverse
block cipher `D`. -/
def cbcDecBlocks (D : List Nat → List Nat) : List Nat → List (List Nat) → List (List Nat)
  | _, [] => []
  | iv, c :: cs => xorBytes iv (D c) :: cbcDecBlocks D c cs

/-! ## The state-token codec

`NotionService.encryptUserId` / `decryptUserId` and the identical pair
in `GitHubService`.  The user id is handled at the byte level (the
UTF-8 conversion performed by `Buffer` is the identity on the byte
sequences exchanged here). -/

/-- `encryptUserId`: hex(iv) ++ "." ++ hex(AES-256-CBC(key, iv, pad(userId))).
The AES block permutation (for the key derived from the configured
secret) is the parameter `E`. -/
def encryptUserId (E : List Nat → List Nat) (iv uid : List Nat) : List Char :=
  hexEncode iv ++ '.' :: hexEncode (cbcEncBlocks E iv (chunk16 (pkcs7Pad uid))).flatten

/-- `decryptUserId`: split on '.', hex-decode the first two parts, run
AES-256-CBC decryption (block permutation inverse `D`) and strip the
padding.  Every throwing step of the source — `Buffer.from(undefined)`
when there is no dot, `createDecipheriv` rejecting an IV that is not 16
bytes, `decipher.final()` rejecting a ciphertext whose length is not a
positive multiple of 16 or whose padding is invalid — is caught by the
source's `try/catch` and surfaced as the `Invalid state parameter`
rejection, modelled as `none`. -/
def decryptUserId (D : List Nat → List Nat) (s : List Char) : Option (List Nat) :=
  match jsSplit '.' s with
  | ivHex :: encHex :: _ =>
    let iv := nodeHexDecode ivHex
    if iv.length = 16 then
      let ct := nodeHexDecode encHex
      if ct.length % 16 = 0 ∧ ct.length ≠ 0 then
        pkcs7Unpad (cbcDecBlocks D iv (chunk16 ct)).flatten
      else none
    else none
  | _ => none

/-! ## Lemmas about the transport layers of the codec -/

theorem hexVal_hexDigitChar {m : Nat} (h : m < 16) : hexVal (hexDigitChar m) = some m := by
  interval_cases m <;> decide

theorem hexDigitChar_ne_dot {m : Nat} (h : m < 16) : hexDigitChar m ≠ '.' := by
  interval_cases m <;> decide

theorem nodeHexDecode_hexEncode {bs : List Nat} (h : ∀ b ∈ bs, b < 256) :
    nodeHexDecode (hexEncode bs) = bs := by
  induction bs with
  | nil => rfl
  | cons b bs ih =>
    have hb : b < 256 := h b (List.mem_cons_self _ _)
    have hdiv : b / 16 < 16 := by omega
    have hmod : b % 16 < 16 := by omega
    simp only [hexEncode, nodeHexDecode, hexVal_hexDigitChar hdiv, hexVal_hexDigitChar hmod]
    rw [ih (fun x hx => h x (List.mem_cons_of_mem _ hx))]
    congr 1
    omega

theorem dot_not_mem_hexEncode {bs : List Nat} (h : ∀ b ∈ bs, b < 256) :
    '.' ∉ hexEncode bs := by
  induction bs with
  | nil => simp [hexEncode]
  | cons b bs ih =>
    have hb : b < 256 := h b (List.mem_cons_self _ _)
    simp only [hexEncode, List.mem_cons, not_or]
    exact ⟨fun hc => hexDigitChar_ne_dot (by omega : b / 16 < 16) hc.symm,
           fun hc => hexDigitChar_ne_dot (by omega : b % 16 < 16) hc.symm,
           ih (fun x hx => h x (List.mem_cons_of_mem _ hx))⟩

theorem jsSplit_ne_nil (sep : Char) (l : List Char) : jsSplit sep l ≠ [] := by
  induction l with
  | nil => simp [jsSplit]
  | cons c cs ih =>
    simp only [jsSplit]
    split
    · simp
    · split
      · simp
      · simp

theorem jsSplit_of_not_mem {sep : Char} {l : List Char} (h : sep ∉ l) :
    jsSplit sep l = [l] := by
  induction l with
  | nil => rfl
  | cons c cs ih =>
    have hc : ¬c = sep := fun hc => h (hc ▸ List.mem_cons_self _ _)
    have ih' := ih (fun hm => h (List.mem_cons_of_mem _ hm))
    simp only [jsSplit, hc, if_false, ih']

theorem jsSplit_append_sep {sep : Char} {a : List Char} (b : List Char) (h : sep ∉ a) :
    jsSplit sep (a ++ sep :: b) = a :: jsSplit sep b := by
  induction a with
  | nil => simp [jsSplit]
  | cons c a ih =>
    have hc : ¬c = sep := fun hc => h (hc ▸ List.mem_cons_self _ _)
    have ih' := ih (fun hm => h (List.mem_cons_of_mem _ hm))
    simp only [List.cons_append, jsSplit, hc, if_false, List.append_eq, ih']

/-! ## Lemmas about XOR, chunking, CBC and PKCS#7 -/

theorem xorBytes_length (a b : List Nat) : (xorBytes a b).length = min a.length b.length :=
  List.length_zipWith _ _ _

theorem xorBytes_lt {a b : List Nat} (ha : ∀ x ∈ a, x < 256) (hb : ∀ x ∈ b, x < 256) :
    ∀ x ∈ xorBytes a b, x < 256 := by
  induction a generalizing b with
  | nil => simp [xorBytes]
  | cons p a ih =>
    cases b with
    | nil => simp [xorBytes]
    | cons q b =>
      intro x hx
      simp only [xorBytes, List.zipWith_cons_cons, List.mem_cons] at hx
      rcases hx with hx | hx
      · subst hx
        have h1 : p < 2 ^ 8 := ha p (List.mem_cons_self _ _)
        have h2 : q < 2 ^ 8 := hb q (List.mem_cons_self _ _)
        exact Nat.bitwise_lt_two_pow h1 h2
      · exact ih (fun y hy => ha y (List.mem_cons_of_mem _ hy))
          (fun y hy => hb y (List.mem_cons_of_mem _ hy)) x hx

theorem xorBytes_cancel {a b : List Nat} (h : a.length = b.length) :
    xorBytes a (xorBytes a b) = b := by
  induction a generalizing b with
  | nil =>
    cases b with
    | nil => rfl
    | cons q b => simp at h
  | cons p a ih =>
    cases b with
    | nil => simp at h
    | cons q b =>
      simp only [List.length_cons, Nat.succ.injEq] at h
      simp only [xorBytes, List.zipWith_cons_cons]
      rw [Nat.xor_cancel_left]
      exact congrArg (q :: ·) (ih h)

theorem chunk16Go_nil : ∀ n : Nat, chunk16Go n [] = []
  | 0 => rfl
  | _ + 1 => rfl

theorem chunk16Go_fuel : ∀ (n m : Nat) (l : List Nat), l.length ≤ n → l.length ≤ m →
    chunk16Go n l = chunk16Go m l := by
  intro n
  induction n with
  | zero =>
    intro m l hn _
    have : l = [] := List.length_eq_zero.mp (Nat.le_zero.mp hn)
    subst this
    rw [chunk16Go_nil, chunk16Go_nil]
  | succ n ih =>
    intro m l hn hm
    by_cases hl : l = []
    · subst hl
      rw [chunk16Go_nil, chunk16Go_nil]
    · have hpos : 0 < l.length := List.length_pos.mpr hl
      obtain ⟨m', rfl⟩ : ∃ m', m = m' + 1 := ⟨m - 1, by omega⟩
      simp only [chunk16Go, hl, if_false]
      congr 1
      apply ih
      · simp only [List.length_drop]; omega
      · simp only [List.length_drop]; omega

theorem chunk16_eq (l : List Nat) :
    chunk16 l = if l = [] then [] else l.take 16 :: chunk16 (l.drop 16) := by
  unfold chunk16
  cases hl : l with
  | nil => rfl
  | cons a as =>
    simp only [List.length_cons, chunk16Go, List.cons_ne_nil, if_false]
    congr 1
    apply chunk16Go_fuel
    · simp only [List.length_drop, List.length_cons]; omega
    · exact Nat.le_refl _

theorem chunk16_cons16 {b : List Nat} (rest : List Nat) (hb : b.length = 16) :
    chunk16 (b ++ rest) = b :: chunk16 rest := by
  rw [chunk16_eq]
  have hne : b ++ rest ≠ [] := by
    intro hc
    have := congrArg List.length hc
    simp [hb] at this
  rw [if_neg hne]
  congr 1
  · rw [← hb, List.take_left]
  · rw [← hb, List.drop_left]

theorem chunk16_flatten (l : List Nat) : (chunk16 l).flatten = l := by
  by_cases h : l = []
  · subst h; rw [chunk16_eq]; rfl
  · rw [chunk16_eq, if_neg h]
    have := chunk16_flatten (l.drop 16)
    simp only [List.flatten_cons, this, List.take_append_drop]
termination_by l.length
decreasing_by
  simp only [List.length_drop]
  have : 0 < l.length := List.length_pos.mpr h
  omega

theorem chunk16_shape (l : List Nat) (hm : l.length % 16 = 0) (hb : ∀ x ∈ l, x < 256) :
    ∀ b ∈ chunk16 l, b.length = 16 ∧ ∀ x ∈ b, x < 256 := by
  by_cases h : l = []
  · subst h; rw [chunk16_eq]; simp
  · have hpos : 0 < l.length := List.length_pos.mpr h
    have h16 : 16 ≤ l.length := by omega
    rw [chunk16_eq, if_neg h]
    intro b hmem
    rcases List.mem_cons.mp hmem with hb' | hb'
    · subst hb'
      refine ⟨by simp [List.length_take]; omega, ?_⟩
      exact fun x hx => hb x (List.take_subset _ _ hx)
    · have hm' : (l.drop 16).length % 16 = 0 := by
        simp only [List.length_drop]; omega
      exact chunk16_shape (l.drop 16) hm' (fun x hx => hb x (List.drop_subset _ _ hx)) b hb'
termination_by l.length
decreasing_by
  simp only [List.length_drop]
  omega

theorem flatten_length_of_blocks {bs : List (List Nat)}
    (h : ∀ b ∈ bs, b.length = 16) : bs.flatten.length = 16 * bs.length := by
  induction bs with
  | nil => rfl
  | cons b bs ih =>
    simp only [List.flatten_cons, List.length_append, List.length_cons,
      h b (List.mem_cons_self _ _), ih (fun x hx => h x (List.mem_cons_of_mem _ hx))]
    ring

theorem chunk16_flatten_blocks {bs : List (List Nat)}
    (h : ∀ b ∈ bs, b.length = 16) : chunk16 bs.flatten = bs := by
  induction bs with
  | nil => rw [List.flatten_nil, chunk16_eq]; rfl
  | cons b bs ih =>
    rw [List.flatten_cons, chunk16_cons16 _ (h b (List.mem_cons_self _ _))]
    rw [ih (fun x hx => h x (List.mem_cons_of_mem _ hx))]

/-- Shape of an abstract 16-byte block permutation: it maps 16-byte
byte strings to 16-byte byte strings. -/
def BlockPermShape (E : List Nat → List Nat) : Prop :=
  ∀ b : List Nat, b.length = 16 → (∀ x ∈ b, x < 256) →
    (E b).length = 16 ∧ ∀ x ∈ E b, x < 256

theorem cbcEncBlocks_shape {E : List Nat → List Nat} (hE : BlockPermShape E) :
    ∀ (bs : List (List Nat)) (iv : List Nat), iv.length = 16 → (∀ x ∈ iv, x < 256) →
      (∀ b ∈ bs, b.length = 16 ∧ ∀ x ∈ b, x < 256) →
      ∀ c ∈ cbcEncBlocks E iv bs, c.length = 16 ∧ ∀ x ∈ c, x < 256 := by
  intro bs
  induction bs with
  | nil => intro iv _ _ _ c hc; simp [cbcEncBlocks] at hc
  | cons b bs ih =>
    intro iv hiv hivb hbs c hc
    obtain ⟨hb16, hbb⟩ := hbs b (List.mem_cons_self _ _)
    have hxlen : (xorBytes iv b).length = 16 := by
      rw [xorBytes_length, hiv, hb16]; omega
    have hxb : ∀ x ∈ xorBytes iv b, x < 256 := xorBytes_lt hivb hbb
    have hc16 := hE (xorBytes iv b) hxlen hxb
    simp only [cbcEncBlocks, List.mem_cons] at hc
    rcases hc with hc | hc
    · subst hc; exact hc16
    · exact ih (E (xorBytes iv b)) hc16.1 hc16.2
        (fun x hx => hbs x (List.mem_cons_of_mem _ hx)) c hc

theorem cbcDecBlocks_cbcEncBlocks {E D : List Nat → List Nat}
    (hE : BlockPermShape E)
    (hDE : ∀ b : List Nat, b.length = 16 → (∀ x ∈ b, x < 256) → D (E b) = b) :
    ∀ (bs : List (List Nat)) (iv : List Nat), iv.length = 16 → (∀ x ∈ iv, x < 256) →
      (∀ b ∈ bs, b.length = 16 ∧ ∀ x ∈ b, x < 256) →
      cbcDecBlocks D iv (cbcEncBlocks E iv bs) = bs := by
  intro bs
  induction bs with
  | nil => intro iv _ _ _; rfl
  | cons b bs ih =>
    intro iv hiv hivb hbs
    obtain ⟨hb16, hbb⟩ := hbs b (List.mem_cons_self _ _)
    have hxlen : (xorBytes iv b).length = 16 := by
      rw [xorBytes_length, hiv, hb16]; omega
    have hxb : ∀ x ∈ xorBytes iv b, x < 256 := xorBytes_lt hivb hbb
    have hc16 := hE (xorBytes iv b) hxlen hxb
    simp only [cbcEncBlocks, cbcDecBlocks]
    rw [hDE (xorBytes iv b) hxlen hxb]
    rw [xorBytes_cancel (by rw [hiv, hb16])]
    rw [ih (E (xorBytes iv b)) hc16.1 hc16.2
      (fun x hx => hbs x (List.mem_cons_of_mem _ hx))]

theorem pkcs7Pad_length_mod (l : List Nat) : (pkcs7Pad l).length % 16 = 0 := by
  simp only [pkcs7Pad, List.length_append, List.length_replicate]
  have := Nat.mod_lt l.length (y := 16) (by omega)
  omega

theorem pkcs7Pad_ne_nil (l : List Nat) : pkcs7Pad l ≠ [] := by
  intro h
  have := congrArg List.length h
  simp only [pkcs7Pad, List.length_append, List.length_replicate, List.length_nil] at this
  have := Nat.mod_lt l.length (y := 16) (by omega)
  omega

theorem pkcs7Pad_bytes {l : List Nat} (h : ∀ x ∈ l, x < 256) :
    ∀ x ∈ pkcs7Pad l, x < 256 := by
  intro x hx
  rcases List.mem_append.mp hx with hx | hx
  · exact h x hx
  · have := List.eq_of_mem_replicate hx
    have hlt := Nat.mod_lt l.length (y := 16) (by omega)
    omega

theorem pkcs7Unpad_pkcs7Pad (l : List Nat) : pkcs7Unpad (pkcs7Pad l) = some l := by
  set p := 16 - l.length % 16 with hp
  have hmod := Nat.mod_lt l.length (y := 16) (by omega)
  have hp1 : 1 ≤ p := by omega
  have hp16 : p ≤ 16 := by omega
  obtain ⟨q, hq⟩ : ∃ q, p = q + 1 := ⟨p - 1, by omega⟩
  have hrep : List.replicate p p ≠ [] := by
    simp [List.replicate, hq]
  have hlast : (pkcs7Pad l).getLast? = some p := by
    unfold pkcs7Pad
    rw [← hp, List.getLast?_append, hq, List.replicate_succ', List.getLast?_concat]
    rfl
  have hlen : (pkcs7Pad l).length = l.length + p := by
    simp [pkcs7Pad, ← hp]
  simp only [pkcs7Unpad, hlast]
  rw [if_neg (by omega)]
  have hdrop : (pkcs7Pad l).drop ((pkcs7Pad l).length - p) = List.replicate p p := by
    unfold pkcs7Pad
    rw [← hp]
    simp only [List.length_append, List.length_replicate]
    have : l.length + p - p = l.length := by omega
    rw [this, List.drop_left]
  rw [if_pos hdrop, hlen]
  have : l.length + p - p = l.length := by omega
  rw [this]
  unfold pkcs7Pad
  rw [← hp, List.take_left]

/-! ## The state-token codec theorems (claim C1) -/

/-- Every state token produced by `encryptUserId` consists of two
hex parts joined by exactly one dot. -/
theorem encryptUserId_count_dot {E : List Nat → List Nat} (hE : BlockPermShape E)
    {iv uid : List Nat} (hiv : iv.length = 16) (hivb : ∀ x ∈ iv, x < 256)
    (huid : ∀ x ∈ uid, x < 256) :
    (encryptUserId E iv uid).count '.' = 1 := by
  have hshape := chunk16_shape (pkcs7Pad uid) (pkcs7Pad_length_mod uid) (pkcs7Pad_bytes huid)
  have hcshape := cbcEncBlocks_shape hE (chunk16 (pkcs7Pad uid)) iv hiv hivb hshape
  have hctBytes : ∀ x ∈ (cbcEncBlocks E iv (chunk16 (pkcs7Pad uid))).flatten, x < 256 := by
    intro x hx
    obtain ⟨c, hc, hxc⟩ := List.mem_flatten.mp hx
    exact (hcshape c hc).2 x hxc
  unfold encryptUserId
  rw [List.count_append, List.count_cons_self]
  rw [List.count_eq_zero.mpr (dot_not_mem_hexEncode hivb),
      List.count_eq_zero.mpr (dot_not_mem_hexEncode hctBytes)]

/-- Claim C1, amended: for every 16-byte IV and every user id (as a
byte string), decoding the state token produced by encoding the user id
yields the user id back.  The hypotheses on `E`/`D` state exactly that
they are the AES-256 block permutation and its inverse for the derived
key, restricted to what the codec uses: a length- and byte-preserving
permutation of 16-byte blocks. -/
theorem stateTokenRoundTrip (E D : List Nat → List Nat)
    (hE : BlockPermShape E)
    (hDE : ∀ b : List Nat, b.length = 16 → (∀ x ∈ b, x < 256) → D (E b) = b)
    (iv uid : List Nat) (hiv : iv.length = 16) (hivb : ∀ x ∈ iv, x < 256)
    (huid : ∀ x ∈ uid, x < 256) :
    decryptUserId D (encryptUserId E iv uid) = some uid := by
  have hshape := chunk16_shape (pkcs7Pad uid) (pkcs7Pad_length_mod uid) (pkcs7Pad_bytes huid)
  have hcshape := cbcEncBlocks_shape hE (chunk16 (pkcs7Pad uid)) iv hiv hivb hshape
  have hctBytes : ∀ x ∈ (cbcEncBlocks E iv (chunk16 (pkcs7Pad uid))).flatten, x < 256 := by
    intro x hx
    obtain ⟨c, hc, hxc⟩ := List.mem_flatten.mp hx
    exact (hcshape c hc).2 x hxc
  have hctLen : (cbcEncBlocks E iv (chunk16 (pkcs7Pad uid))).flatten.length
      = 16 * (cbcEncBlocks E iv (chunk16 (pkcs7Pad uid))).length :=
    flatten_length_of_blocks (fun b hb => (hcshape b hb).1)
  have hptne : chunk16 (pkcs7Pad uid) ≠ [] := by
    rw [chunk16_eq, if_neg (pkcs7Pad_ne_nil uid)]
    simp
  have hctne : cbcEncBlocks E iv (chunk16 (pkcs7Pad uid)) ≠ [] := by
    cases hp : chunk16 (pkcs7Pad uid) with
    | nil => exact absurd hp hptne
    | cons b bs => simp [cbcEncBlocks]
  have hlen0 : (cbcEncBlocks E iv (chunk16 (pkcs7Pad uid))).flatten.length % 16 = 0 := by
    rw [hctLen]; omega
  have hlenne : (cbcEncBlocks E iv (chunk16 (pkcs7Pad uid))).flatten.length ≠ 0 := by
    rw [hctLen]
    have : (cbcEncBlocks E iv (chunk16 (pkcs7Pad uid))).length ≠ 0 :=
      fun hc => hctne (List.length_eq_zero.mp hc)
    omega
  unfold encryptUserId decryptUserId
  rw [jsSplit_append_sep _ (dot_not_mem_hexEncode hivb),
      jsSplit_of_not_mem (dot_not_mem_hexEncode hctBytes)]
  simp only [nodeHexDecode_hexEncode hivb, nodeHexDecode_hexEncode hctBytes, hiv,
    if_true, ne_eq, hlen0, hlenne, not_false_iff, and_self]
  rw [chunk16_flatten_blocks (fun b hb => (hcshape b hb).1)]
  rw [cbcDecBlocks_cbcEncBlocks hE hDE (chunk16 (pkcs7Pad uid)) iv hiv hivb hshape]
  rw [chunk16_flatten]
  exact pkcs7Unpad_pkcs7Pad uid

/-- Witness for the round-trip theorem at a concrete instance: the
identity block permutation, the all-zero IV and the one-byte user id
`[97]`. -/
theorem stateTokenRoundTrip_witness :
    decryptUserId id (encryptUserId id (List.replicate 16 0) [97]) = some [97] :=
  stateTokenRoundTrip id id (fun _ hb hx => ⟨hb, hx⟩) (fun _ _ _ => rfl)
    (List.replicate 16 0) [97] (by decide) (by decide) (by decide)

/-- Claim C1, counterexample to the second half as stated: appending a
second dot-component to a valid state token yields a string that
`encryptUserId` can never produce (every encoded token contains exactly
one dot, by `encryptUserId_count_dot`), yet `decryptUserId` accepts it
and returns the original user id, because the JavaScript destructuring
`[ivHex, encryptedHex] = data.split('.')` silently ignores all parts
after the second.  The tampering is independent of the block cipher, so
the identity permutation is used to obtain a closed, computable
instance: the first conjunct exhibits the genuine token for IV `0^16`
and user id `[97]`, the second shows the forged string decodes to the
same user id, and the third records that the forged string has two dots
and hence is outside the range of `encryptUserId`. -/
theorem stateTokenDecodeForged :
    encryptUserId id (List.replicate 16 0) [97]
      = String.toList "00000000000000000000000000000000.610f0f0f0f0f0f0f0f0f0f0f0f0f0f0f"
    ∧ decryptUserId id
        (String.toList "00000000000000000000000000000000.610f0f0f0f0f0f0f0f0f0f0f0f0f0f0f.7a")
      = some [97]
    ∧ (String.toList
        "00000000000000000000000000000000.610f0f0f0f0f0f0f0f0f0f0f0f0f0f0f.7a").count '.' = 2 := by
  refine ⟨by decide, by decide, by decide⟩

/-! ## A model of JavaScript JSON values and of JSON.parse

`AIService.extractFromContent` runs `JSON.parse` on the raw model
response and then inspects `responseData.proposals`.  The parser below
follows the JSON grammar accepted by `JSON.parse`: optional whitespace,
`null`/`true`/`false`, double-quoted strings with the standard escape
sequences, numbers (optional minus, integer part without leading
zeros, optional fraction, optional exponent), arrays and objects.
Recursion is bounded by a fuel argument that strictly exceeds any
possible nesting depth of the input, so the bound is never the reason
an input is rejected. -/

inductive Json where
  | null
  | bool (b : Bool)
  | num (raw : String)
  | str (s : String)
  | arr (elems : List Json)
  | obj (fields : List (String × Json))

/-- JSON insignificant whitespace: space, tab, line feed, carriage
return. -/
def skipWs : List Char → List Char
  | [] => []
  | c :: cs => if c = ' ' ∨ c = '\t' ∨ c = '\n' ∨ c = '\r' then skipWs cs else c :: cs

/-- Longest digit prefix and the rest. -/
def takeDigits : List Char → List Char × List Char
  | [] => ([], [])
  | c :: cs =>
    if c.isDigit then
      let (d, r) := takeDigits cs
      (c :: d, r)
    else ([], c :: cs)

/-- JSON integer part: a single `0`, or a nonzero digit followed by
digits (leading zeros are a syntax error for `JSON.parse`). -/
def parseIntPart : List Char → Option (List Char × List Char)
  | [] => none
  | c :: cs =>
    if c = '0' then some ([c], cs)
    else if c.isDigit then
      let (d, r) := takeDigits cs
      some (c :: d, r)
    else none

/-- JSON fraction part (possibly empty). -/
def parseFracPart (l : List Char) : Option (List Char × List Char) :=
  match l with
  | '.' :: cs =>
    let (d, r) := takeDigits cs
    if d = [] then none else some ('.' :: d, r)
  | _ => some ([], l)

/-- JSON exponent part (possibly empty). -/
def parseExpPart (l : List Char) : Option (List Char × List Char) :=
  match l with
  | c :: cs =>
    if c = 'e' ∨ c = 'E' then
      match cs with
      | s :: cs' =>
        if s = '+' ∨ s = '-' then
          let (d, r) := takeDigits cs'
          if d = [] then none else some (c :: s :: d, r)
        else
          let (d, r) := takeDigits cs
          if d = [] then none else some (c :: d, r)
      | [] => none
    else some ([], l)
  | [] => some ([], [])

/-- A JSON number lexeme (kept verbatim; no claim depends on numeric
semantics, only on which strings are accepted). -/
def parseNumber (l : List Char) : Option (String × List Char) :=
  match l with
  | '-' :: cs => do
    let (i, r1) ← parseIntPart cs
    let (f, r2) ← parseFracPart r1
    let (e, r3) ← parseExpPart r2
    some (String.mk ('-' :: (i ++ f ++ e)), r3)
  | _ => do
    let (i, r1) ← parseIntPart l
    let (f, r2) ← parseFracPart r1
    let (e, r3) ← parseExpPart r2
    some (String.mk (i ++ f ++ e), r3)

/-- Four hex digits of a \u escape. -/
def hex4 (a b c d : Char) : Option Nat := do
  let x ← hexVal a
  let y ← hexVal b
  let z ← hexVal c
  let w ← hexVal d
  some (((x * 16 + y) * 16 + z) * 16 + w)

/-- Body of a JSON string after the opening quote: returns the decoded
characters and the input after the closing quote.  Raw control
characters are a syntax error; the escapes are the eight JSON
single-character escapes plus \uXXXX. -/
def parseStringBody : Nat → List Char → Option (List Char × List Char)
  | 0, _ => none
  | fuel + 1, l =>
    match l with
    | [] => none
    | '"' :: cs => some ([], cs)
    | '\\' :: e :: cs =>
      let dec : Option (Char × List Char) :=
        if e = '"' then some ('"', cs)
        else if e = '\\' then some ('\\', cs)
        else if e = '/' then some ('/', cs)
        else if e = 'b' then some ('\x08', cs)
        else if e = 'f' then some ('\x0c', cs)
        else if e = 'n' then some ('\n', cs)
        else if e = 'r' then some ('\x0d', cs)
        else if e = 't' then some ('\t', cs)
        else if e = 'u' then
          match cs with
          | a :: b :: c :: d :: cs' =>
            match hex4 a b c d with
            | some n => some (Char.ofNat n, cs')
            | none => none
          | _ => none
        else none
      match dec with
      | none => none
      | some (ch, rest) =>
        match parseStringBody fuel rest with
        | none => none
        | some (s, r) => some (ch :: s, r)
    | c :: cs =>
      if c.toNat < 32 then none
      else
        match parseStringBody fuel cs with
        | none => none
        | some (s, r) => some (c :: s, r)

mutual

/-- One JSON value, leading whitespace allowed. -/
def parseValue : Nat → List Char → Option (Json × List Char)
  | 0, _ => none
  | fuel + 1, l =>
    match skipWs l with
    | 'n' :: 'u' :: 'l' :: 'l' :: r => some (Json.null, r)
    | 't' :: 'r' :: 'u' :: 'e' :: r => some (Json.bool true, r)
    | 'f' :: 'a' :: 'l' :: 's' :: 'e' :: r => some (Json.bool false, r)
    | '"' :: cs =>
      match parseStringBody (cs.length + 1) cs with
      | some (s, r) => some (Json.str (String.mk s), r)
      | none => none
    | '[' :: cs =>
      match skipWs cs with
      | ']' :: r => some (Json.arr [], r)
      | cs' =>
        match parseElems fuel cs' with
        | some (xs, r) => some (Json.arr xs, r)
        | none => none
    | '\x7b' :: cs =>
      match skipWs cs with
      | '\x7d' :: r => some (Json.obj [], r)
      | cs' =>
        match parseMembers fuel cs' with
        | some (ms, r) => some (Json.obj ms, r)
        | none => none
    | cs =>
      match parseNumber cs with
      | some (raw, r) => some (Json.num raw, r)
      | none => none

/-- Comma-separated array elements followed by the closing bracket. -/
def parseElems : Nat → List Char → Option (List Json × List Char)
  | 0, _ => none
  | fuel + 1, l =>
    match parseValue fuel l with
    | none => none
    | some (v, r) =>
      match skipWs r with
      | ',' :: r' =>
        match parseElems fuel r' with
        | some (vs, r'') => some (v :: vs, r'')
        | none => none
      | ']' :: r' => some ([v], r')
      | _ => none

/-- Comma-separated object members followed by the closing brace. -/
def parseMembers : Nat → List Char → Option (List (String × Json) × List Char)
  | 0, _ => none
  | fuel + 1, l =>
    match skipWs l with
    | '"' :: cs =>
      match parseStringBody (cs.length + 1) cs with
      | none => none
      | some (k, r) =>
        match skipWs r with
        | ':' :: r' =>
          match parseValue fuel r' with
          | none => none
          | some (v, r'') =>
            match skipWs r'' with
            | ',' :: r3 =>
              match parseMembers fuel r3 with
              | some (ms, r4) => some ((String.mk k, v) :: ms, r4)
              | none => none
            | '\x7d' :: r3 => some ([(String.mk k, v)], r3)
            | _ => none
        | _ => none
    | _ => none

end

/-- `JSON.parse`: a single JSON value with nothing but whitespace after
it; any other input is a syntax error (`none`, which the source turns
into the catch branch of its `try` around `JSON.parse`). -/
def jsonParse (s : String) : Option Json :=
  match parseValue (s.length * 4 + 8) s.toList with
  | some (v, r) => if skipWs r = [] then some v else none
  | none => none

/-! ## AIService.extractFromContent -/

/-- The result record of `extractFromContent` (the TypeScript
`ExtractionResult`).  The proposals are kept as the raw parsed JSON
values: the source casts the parsed data and returns the proposals
verbatim without validating individual elements. -/
structure ExtractionResult where
  success : Bool
  proposalsCount : Nat
  proposalBatchId : Option String
  error : Option String
  proposals : Option (List Json)

/-- The `success:false` result shape shared by every failure branch of
`extractFromContent`: zero proposals and an error message. -/
def failureResult (msg : String) : ExtractionResult :=
  { success := false, proposalsCount := 0, proposalBatchId := none,
    error := some msg, proposals := none }

/-- JavaScript member access `v.k` on a parsed JSON value: reading a
property of `null` throws a TypeError; objects yield the value of the
last binding of the key, or undefined (`none`) when absent; every other
value (primitives, arrays) yields undefined for a non-index key. -/
def jsMember : Json → String → Except String (Option Json)
  | Json.null, k => Except.error ("TypeError: Cannot read properties of null (reading " ++ k ++ ")")
  | Json.obj fields, k => Except.ok (((fields.reverse).find? (fun kv => kv.fst == k)).map Prod.snd)
  | _, _ => Except.ok none

def parseFailureMessage : String :=
  "Failed to parse AI response. The response was not valid JSON."

def invalidStructureMessage : String :=
  "Invalid response structure: missing or invalid proposals array"

/-- The body of the `try` block of `extractFromContent` from the point
where the model response is available: parse the response (a parse
failure is caught locally and returned as a `success:false` result),
read `responseData.proposals` (which may throw a TypeError when the
parsed value is `null`), and check `!responseData.proposals ||
!Array.isArray(responseData.proposals)` — a check that passes exactly
when the member is an array, since arrays are truthy and every other
value either is falsy or fails `Array.isArray`. -/
def extractBody (response : String) (batchId : String) : Except String ExtractionResult :=
  match jsonParse response with
  | none => Except.ok (failureResult parseFailureMessage)
  | some parsed =>
    match jsMember parsed "proposals" with
    | Except.error e => Except.error e
    | Except.ok field =>
      match field with
      | some (Json.arr xs) =>
        Except.ok { success := true, proposalsCount := xs.length,
                    proposalBatchId := some batchId, error := none, proposals := some xs }
      | _ => Except.ok (failureResult invalidStructureMessage)

/-- `AIService.extractFromContent`.  The parameter `llm` is the outcome
of `callLLMDirect` (`.error` = the call threw: timeout, non-2xx, or a
response without choices); `batchId` is the fresh uuid that the source
draws for a successful extraction.  The whole body sits inside
`try/catch`, whose catch branch turns ANY thrown error — including
transport-level failures of the model call — into a `success:false`
result with the error message; the function itself never throws, which
is why its embedding is total. -/
def extractFromContent (llm : Except String String) (batchId : String) : ExtractionResult :=
  match llm.bind (fun r => extractBody r batchId) with
  | Except.ok res => res
  | Except.error e => failureResult e

/-! ## Extraction error-channel theorems (claims C3, C7, C8) -/

/-- Claim C3, amended: `extractFromContent` converts every malformed
model output into a `success:false` result — both a response body that
is not valid JSON (second conjunct) and a body that parses but has a
missing or invalid `proposals` array (third conjunct: the member is
read without a thrown TypeError but is not an array, or reading it
throws, as on a parsed `null`) — and it ALSO converts transport-level
failures of the language-model call into `success:false` results
carrying the thrown error message (first conjunct) — the function's
outer `catch` swallows every exception, so no failure propagates to
the caller as a thrown exception (the embedding is a total function
for exactly this reason). -/
theorem extractErrorChannel (llm : Except String String) (batchId : String) :
    (∀ e, llm = Except.error e → extractFromContent llm batchId = failureResult e)
    ∧ (∀ s, llm = Except.ok s → jsonParse s = none →
        extractFromContent llm batchId = failureResult parseFailureMessage)
    ∧ ∀ s v, llm = Except.ok s → jsonParse s = some v →
        (∀ e, jsMember v "proposals" = Except.error e →
          extractFromContent llm batchId = failureResult e)
        ∧ ∀ field, jsMember v "proposals" = Except.ok field →
            (∀ xs, field ≠ some (Json.arr xs)) →
            extractFromContent llm batchId = failureResult invalidStructureMessage := by
  refine ⟨?_, ?_, ?_⟩
  · rintro e rfl
    rfl
  · rintro s rfl h
    unfold extractFromContent extractBody
    simp only [Except.bind, h]
  · rintro s v rfl hv
    constructor
    · intro e he
      unfold extractFromContent extractBody
      simp only [Except.bind, hv, he]
    · intro field hf hne
      unfold extractFromContent extractBody
      simp only [Except.bind, hv, hf]

/-- Witness for `extractErrorChannel`: the first conjunct at a concrete
transport failure, and the shape-mismatch conjunct at the valid-JSON
body whose object has no proposals member. -/
theorem extractErrorChannel_witness :
    extractFromContent (Except.error "ECONNABORTED") "b1" = failureResult "ECONNABORTED"
    ∧ extractFromContent (Except.ok "\x7b\"a\":1\x7d") "b1"
        = failureResult invalidStructureMessage :=
  ⟨(extractErrorChannel (Except.error "ECONNABORTED") "b1").1 "ECONNABORTED" rfl,
   ((extractErrorChannel (Except.ok "\x7b\"a\":1\x7d") "b1").2.2 "\x7b\"a\":1\x7d"
      (Json.obj [("a", Json.num "1")]) rfl rfl).2 none rfl
      (fun _ h => Option.noConfusion h)⟩

/-- Claim C3, counterexample to the claim as stated: a transport-level
failure of the model call (here an axios timeout, thrown by
`callLLMDirect`) does NOT propagate out of `extractFromContent` as an
exception; it is converted into an ordinary `success:false` result
value by the outer `catch` of the source.  The equality below exhibits
the returned result for a concrete thrown transport error. -/
theorem extractTransportErrorConverted :
    extractFromContent (Except.error "Azure OpenAI API Error: timeout of 90000ms exceeded") "b1"
      = failureResult "Azure OpenAI API Error: timeout of 90000ms exceeded" := rfl

/-- Claim C7: for every model response body that is not valid JSON,
`extractFromContent` returns a result with `success:false`,
`proposalsCount:0` and an error message, and does not throw (the
embedding is total). -/
theorem extractInvalidJsonResult (s batchId : String) (h : jsonParse s = none) :
    (extractFromContent (Except.ok s) batchId).success = false
    ∧ (extractFromContent (Except.ok s) batchId).proposalsCount = 0
    ∧ (extractFromContent (Except.ok s) batchId).error = some parseFailureMessage := by
  have heq : extractFromContent (Except.ok s) batchId = failureResult parseFailureMessage := by
    unfold extractFromContent extractBody
    simp only [Except.bind, h]
  rw [heq]
  exact ⟨rfl, rfl, rfl⟩

/-- Witness for `extractInvalidJsonResult` at the concrete non-JSON
body `"not json"`. -/
theorem extractInvalidJsonResult_witness :
    (extractFromContent (Except.ok "not json") "b1").success = false
    ∧ (extractFromContent (Except.ok "not json") "b1").proposalsCount = 0
    ∧ (extractFromContent (Except.ok "not json") "b1").error = some parseFailureMessage :=
  extractInvalidJsonResult "not json" "b1" rfl

/-- Claim C8: for the model response body consisting of an object with
an empty proposals array, `extractFromContent` returns `success:true`,
`proposalsCount:0`, the empty proposals list and the freshly drawn
batch id. -/
theorem extractEmptyProposals (batchId : String) :
    extractFromContent (Except.ok "\x7b\"proposals\":[]\x7d") batchId =
      { success := true, proposalsCount := 0, proposalBatchId := some batchId,
        error := none, proposals := some [] } := rfl

/-! ## Proposal-to-task materialization

The sync endpoints of `NotionController` and `GitHubController` are
textually identical from the point where the extraction result is
available (they differ only in the source tag and the response message
strings), so they are embedded as one function, `controllerSyncStep`,
parameterized by the source tag and the success message.  The earlier
stages (the service-level sync and the extraction call itself) are
modelled by taking their outcome — the `ExtractionResult` consumed by
the controller — as an input.  At this layer the proposals are the
typed TypeScript `Proposal` interface values that the controller field
accesses assume. -/

inductive TaskSource where
  | manual
  | meetingTranscript
  | email
  | slack
  | github
  | notion
deriving DecidableEq

/-- The string value of each `TaskSource` enum member. -/
def taskSourceStr : TaskSource → String
  | .manual => "manual"
  | .meetingTranscript => "meeting_transcript"
  | .email => "email"
  | .slack => "slack"
  | .github => "github"
  | .notion => "notion"

inductive ProposalType where
  | createTask
  | draftFollowup
  | reminder
  | summary
  | riskAlert
deriving DecidableEq

inductive TaskPriority where
  | low
  | medium
  | high
deriving DecidableEq

/-- The string value of each `TaskPriority` enum member. -/
def taskPriorityStr : TaskPriority → String
  | .low => "low"
  | .medium => "medium"
  | .high => "high"

theorem taskPriorityStr_ne_empty (pr : TaskPriority) : taskPriorityStr pr ≠ "" := by
  cases pr <;> decide

/-- The TypeScript `Proposal` interface (`common/types/ai.types`). -/
structure Proposal where
  id : String
  type : ProposalType
  title : String
  description : String
  evidence : List String
  rationale : String
  whatWillHappen : String
  owner : Option String
  deadline : Option String
  priority : TaskPriority
  status : Option String
deriving DecidableEq

/-- `CreateTaskInput` of `TasksService` (optional fields are `Option`). -/
structure CreateTaskInput where
  userId : String
  title : String
  description : Option String
  sourceType : String
  tags : Option (List String)
  priority : Option String
  startDate : Option String
  endDate : Option String
deriving DecidableEq

/-- A row of the `tasks` table as built by `createManyTasks` (`NewTask`
with the service's defaults applied).  The database-generated id and
timestamps are omitted; duplicate contents appear as repeated list
entries.  Dates are carried as the raw strings they were parsed from
(`new Date` is injective on the values exchanged here and no claim
depends on date arithmetic). -/
structure TaskRow where
  userId : String
  title : String
  description : Option String
  sourceType : String
  tags : List String
  priority : String
  startDate : Option String
  endDate : Option String
  status : String
deriving DecidableEq

/-- The per-element mapping of `TasksService.createManyTasks` (and
`createTask`): JavaScript `||` turns an absent or empty description
into `null`, an absent or empty priority into `'medium'`, absent tags
into `[]`; the status is always `'pending'`. -/
def inputToRow (i : CreateTaskInput) : TaskRow :=
  { userId := i.userId
    title := i.title
    description := match i.description with
      | some d => if d = "" then none else some d
      | none => none
    sourceType := i.sourceType
    tags := i.tags.getD []
    priority := match i.priority with
      | some p => if p = "" then "medium" else p
      | none => "medium"
    startDate := i.startDate
    endDate := i.endDate
    status := "pending" }

/-- `TasksService.createManyTasks` as a transformation of the tasks
table: one batch insert appending the mapped rows (the early return
for an empty input list leaves the table unchanged, which coincides
with appending the empty list). -/
def createManyTasks (inputs : List CreateTaskInput) (store : List TaskRow) : List TaskRow :=
  store ++ inputs.map inputToRow

/-- The controller's mapping from a `create_task` proposal to a
`CreateTaskInput`: the provider source tag, the evidence list as tags,
and `proposal.deadline ? new Date(proposal.deadline) : undefined` —
an empty-string deadline is falsy and therefore yields no end date. -/
def proposalToTaskInput (uid : String) (src : TaskSource) (p : Proposal) : CreateTaskInput :=
  { userId := uid
    title := p.title
    description := some p.description
    sourceType := taskSourceStr src
    tags := some p.evidence
    priority := some (taskPriorityStr p.priority)
    startDate := none
    endDate := match p.deadline with
      | some d => if d = "" then none else some d
      | none => none }

/-- The extraction result as consumed by the controllers: same record
as `ExtractionResult` but with the proposals at the typed interface the
controller's field accesses assume. -/
structure CtrlExtractionResult where
  success : Bool
  proposalsCount : Nat
  proposalBatchId : Option String
  error : Option String
  proposals : Option (List Proposal)
deriving DecidableEq

/-- The uniform response envelope (code, success, message, data); the
timestamp is omitted (wall-clock time). -/
structure ApiResponse (α : Type) where
  code : Nat
  success : Bool
  message : String
  data : Option α
deriving DecidableEq

/-- The data payload of a successful sync response.  `totalItems` is
the controller's page (Notion) or issue (GitHub) count. -/
structure SyncResponseData where
  totalItems : Nat
  proposalsCount : Nat
  proposals : Option (List Proposal)
  proposalBatchId : Option String
  savedTasksCount : Nat
deriving DecidableEq

/-- The sync endpoint from the point where the extraction result is
available (`NotionController.sync` / `GitHubController.sync`): on a
successful extraction, filter the proposals to `type === CREATE_TASK`,
map them to task inputs and insert them as one batch; `persistOk`
models whether the `createManyTasks` insert succeeds — when it throws,
the inner `catch` only logs, `savedTasksCount` stays `0`, the store is
unchanged, and the endpoint still answers 200/success.  On a failed
extraction the endpoint answers 400 with the extraction error. -/
def controllerSyncStep (uid : String) (src : TaskSource) (okMsg : String)
    (totalItems : Nat) (result : CtrlExtractionResult) (persistOk : Bool)
    (store : List TaskRow) : ApiResponse SyncResponseData × List TaskRow :=
  if result.success then
    let createTaskProposals :=
      (result.proposals.getD []).filter (fun p => p.type == ProposalType.createTask)
    if 0 < createTaskProposals.length then
      let taskInputs := createTaskProposals.map (proposalToTaskInput uid src)
      if persistOk then
        (⟨200, true, okMsg,
          some ⟨totalItems, result.proposalsCount, result.proposals,
                result.proposalBatchId, taskInputs.length⟩⟩,
         createManyTasks taskInputs store)
      else
        (⟨200, true, okMsg,
          some ⟨totalItems, result.proposalsCount, result.proposals,
                result.proposalBatchId, 0⟩⟩,
         store)
    else
      (⟨200, true, okMsg,
        some ⟨totalItems, result.proposalsCount, result.proposals,
              result.proposalBatchId, 0⟩⟩,
       store)
  else
    (⟨400, false, result.error.getD "Extraction failed", none⟩, store)

/-- Shared helper: on a successful extraction with a succeeding insert,
the tasks table after the sync step is the old table with exactly the
mapped `create_task` proposals appended. -/
theorem controllerSyncStep_snd (uid : String) (src : TaskSource) (okMsg : String)
    (totalItems : Nat) (result : CtrlExtractionResult) (store : List TaskRow)
    (hs : result.success = true) :
    (controllerSyncStep uid src okMsg totalItems result true store).2
      = store ++ ((result.proposals.getD []).filter
          (fun p => p.type == ProposalType.createTask)).map
          (fun p => inputToRow (proposalToTaskInput uid src p)) := by
  unfold controllerSyncStep
  rw [if_pos hs]
  by_cases hl : 0 < ((result.proposals.getD []).filter
      (fun p => p.type == ProposalType.createTask)).length
  · rw [if_pos hl]
    simp only [createManyTasks, List.map_map]
    rfl
  · rw [if_neg hl]
    have h0 : ((result.proposals.getD []).filter
        (fun p => p.type == ProposalType.createTask)) = [] :=
      List.length_eq_zero.mp (by omega)
    rw [h0]
    simp

/-! ## Materialization theorems (claims C2, C5, C10) -/

/-- Claim C2, amended: on every successful `ExtractionResult` the sync
endpoint persists exactly the `create_task` proposals, as one appended
batch, and each persisted row carries the proposal's title, the
provider source tag as `sourceType`, the evidence list as tags, the
proposal's priority and status `pending`; the proposal's description
is carried when it is nonempty (an empty description is stored as
null), and the deadline becomes the end date when a nonempty deadline
is present (an empty-string deadline is falsy and treated as absent). -/
theorem materializePostcondition (uid : String) (src : TaskSource) (okMsg : String)
    (totalItems : Nat) (result : CtrlExtractionResult) (store : List TaskRow)
    (hs : result.success = true) :
    (controllerSyncStep uid src okMsg totalItems result true store).2
      = store ++ ((result.proposals.getD []).filter
          (fun p => p.type == ProposalType.createTask)).map
          (fun p => inputToRow (proposalToTaskInput uid src p))
    ∧ ∀ p : Proposal,
        (inputToRow (proposalToTaskInput uid src p)).title = p.title
        ∧ (p.description ≠ "" →
            (inputToRow (proposalToTaskInput uid src p)).description = some p.description)
        ∧ (inputToRow (proposalToTaskInput uid src p)).sourceType = taskSourceStr src
        ∧ (inputToRow (proposalToTaskInput uid src p)).tags = p.evidence
        ∧ (inputToRow (proposalToTaskInput uid src p)).priority = taskPriorityStr p.priority
        ∧ (∀ d, p.deadline = some d → d ≠ "" →
            (inputToRow (proposalToTaskInput uid src p)).endDate = some d)
        ∧ (inputToRow (proposalToTaskInput uid src p)).status = "pending" := by
  refine ⟨controllerSyncStep_snd uid src okMsg totalItems result store hs, ?_⟩
  intro p
  refine ⟨rfl, ?_, rfl, rfl, ?_, ?_, rfl⟩
  · intro hd
    simp only [inputToRow, proposalToTaskInput, if_neg hd]
  · show (if taskPriorityStr p.priority = "" then "medium" else taskPriorityStr p.priority)
      = taskPriorityStr p.priority
    rw [if_neg (taskPriorityStr_ne_empty p.priority)]
  · intro d hd hne
    simp only [inputToRow, proposalToTaskInput, hd, if_neg hne]

/-- Witness for `materializePostcondition` at a concrete successful
extraction with no proposals. -/
theorem materializePostcondition_witness :
    (controllerSyncStep "u" TaskSource.github "m" 0
        { success := true, proposalsCount := 0, proposalBatchId := some "b",
          error := none, proposals := some [] } true []).2 = [] := by
  have h := (materializePostcondition "u" TaskSource.github "m" 0
    { success := true, proposalsCount := 0, proposalBatchId := some "b",
      error := none, proposals := some [] } [] rfl).1
  simpa using h

/-- Claim C2, counterexample to the claim as stated: for a `create_task`
proposal whose description is the empty string and whose deadline is
present but empty, the persisted task does NOT carry the proposal's
description (it stores null) and does NOT carry an end date — the
JavaScript `description || null` and `deadline ? ... : undefined`
coercions drop both. -/
theorem materializeDropsEmptyFields :
    ((controllerSyncStep "u1" TaskSource.notion
        "Notion content synced and extracted successfully" 1
        { success := true, proposalsCount := 1, proposalBatchId := some "b1",
          error := none,
          proposals := some
            [{ id := "p1", type := ProposalType.createTask, title := "Prepare report",
               description := "", evidence := ["Alice will prepare the report by Friday"],
               rationale := "deadline mentioned", whatWillHappen := "saved to task list",
               owner := none, deadline := some "", priority := TaskPriority.high,
               status := none }] }
        true []).2).map (fun r => (r.description, r.endDate)) = [(none, none)] := rfl

/-- Claim C5: running the sync step twice over the identical extraction
result (identical upstream content) appends the mapped `create_task`
rows twice — no deduplication by content or (title, sourceType) is
performed — so any `create_task` proposal yields at least two task rows
with its title and source tag after the second run. -/
theorem syncTwiceDuplicates (uid : String) (src : TaskSource) (okMsg : String)
    (totalItems : Nat) (result : CtrlExtractionResult) (store : List TaskRow)
    (hs : result.success = true) (p : Proposal)
    (hp : p ∈ (result.proposals.getD []).filter (fun q => q.type == ProposalType.createTask)) :
    (controllerSyncStep uid src okMsg totalItems result true
        (controllerSyncStep uid src okMsg totalItems result true store).2).2
      = store
        ++ ((result.proposals.getD []).filter
            (fun q => q.type == ProposalType.createTask)).map
            (fun q => inputToRow (proposalToTaskInput uid src q))
        ++ ((result.proposals.getD []).filter
            (fun q => q.type == ProposalType.createTask)).map
            (fun q => inputToRow (proposalToTaskInput uid src q))
    ∧ 2 ≤ ((controllerSyncStep uid src okMsg totalItems result true
          (controllerSyncStep uid src okMsg totalItems result true store).2).2.filter
          (fun r => r.title == p.title && r.sourceType == taskSourceStr src)).length := by
  have h1 := controllerSyncStep_snd uid src okMsg totalItems result store hs
  have h2 := controllerSyncStep_snd uid src okMsg totalItems result
    (controllerSyncStep uid src okMsg totalItems result true store).2 hs
  nth_rewrite 2 [h1] at h2
  refine ⟨h2, ?_⟩
  rw [h2]
  have hrow : inputToRow (proposalToTaskInput uid src p)
      ∈ ((result.proposals.getD []).filter
          (fun q => q.type == ProposalType.createTask)).map
          (fun q => inputToRow (proposalToTaskInput uid src q)) :=
    List.mem_map_of_mem _ hp
  have hpred : (fun r => r.title == p.title && r.sourceType == taskSourceStr src)
      (inputToRow (proposalToTaskInput uid src p)) = true := by
    simp [inputToRow, proposalToTaskInput]
  have hmemf : inputToRow (proposalToTaskInput uid src p)
      ∈ (((result.proposals.getD []).filter
          (fun q => q.type == ProposalType.createTask)).map
          (fun q => inputToRow (proposalToTaskInput uid src q))).filter
          (fun r => r.title == p.title && r.sourceType == taskSourceStr src) :=
    List.mem_filter.mpr ⟨hrow, hpred⟩
  have hlen : 1 ≤ ((((result.proposals.getD []).filter
      (fun q => q.type == ProposalType.createTask)).map
      (fun q => inputToRow (proposalToTaskInput uid src q))).filter
      (fun r => r.title == p.title && r.sourceType == taskSourceStr src)).length :=
    List.length_pos_of_mem hmemf
  simp only [List.filter_append, List.length_append]
  omega

/-- Witness for `syncTwiceDuplicates`: a single `create_task` proposal
synced twice from an empty table yields two identical task rows. -/
theorem syncTwiceDuplicates_witness :
    2 ≤ ((controllerSyncStep "u" TaskSource.github "m" 1
        { success := true, proposalsCount := 1, proposalBatchId := some "b",
          error := none,
          proposals := some
            [{ id := "p1", type := ProposalType.createTask, title := "Fix login bug",
               description := "d", evidence := ["see issue 7"],
               rationale := "r", whatWillHappen := "saved to task list",
               owner := none, deadline := none, priority := TaskPriority.medium,
               status := none }] }
        true
        (controllerSyncStep "u" TaskSource.github "m" 1
          { success := true, proposalsCount := 1, proposalBatchId := some "b",
            error := none,
            proposals := some
              [{ id := "p1", type := ProposalType.createTask, title := "Fix login bug",
                 description := "d", evidence := ["see issue 7"],
                 rationale := "r", whatWillHappen := "saved to task list",
                 owner := none, deadline := none, priority := TaskPriority.medium,
                 status := none }] }
          true []).2).2.filter
        (fun r => r.title == "Fix login bug" && r.sourceType == taskSourceStr TaskSource.github)).length :=
  (syncTwiceDuplicates "u" TaskSource.github "m" 1
    { success := true, proposalsCount := 1, proposalBatchId := some "b",
      error := none,
      proposals := some
        [{ id := "p1", type := ProposalType.createTask, title := "Fix login bug",
           description := "d", evidence := ["see issue 7"],
           rationale := "r", whatWillHappen := "saved to task list",
           owner := none, deadline := none, priority := TaskPriority.medium,
           status := none }] }
    [] rfl
    { id := "p1", type := ProposalType.createTask, title := "Fix login bug",
      description := "d", evidence := ["see issue 7"],
      rationale := "r", whatWillHappen := "saved to task list",
      owner := none, deadline := none, priority := TaskPriority.medium,
      status := none }
    (by decide)).2

/-- Claim C10: when extraction succeeds but persisting the mapped tasks
throws, the sync endpoint still answers code 200 with `success:true`
and `savedTasksCount:0`, and no task row is stored — the persistence
failure is swallowed by the inner catch and never surfaced. -/
theorem persistFailureSwallowed (uid : String) (src : TaskSource) (okMsg : String)
    (totalItems : Nat) (result : CtrlExtractionResult) (store : List TaskRow)
    (hs : result.success = true)
    (hne : (result.proposals.getD []).filter (fun p => p.type == ProposalType.createTask) ≠ []) :
    (controllerSyncStep uid src okMsg totalItems result false store).1.code = 200
    ∧ (controllerSyncStep uid src okMsg totalItems result false store).1.success = true
    ∧ ((controllerSyncStep uid src okMsg totalItems result false store).1.data.map
        SyncResponseData.savedTasksCount) = some 0
    ∧ (controllerSyncStep uid src okMsg totalItems result false store).2 = store := by
  have hl : 0 < ((result.proposals.getD []).filter
      (fun p => p.type == ProposalType.createTask)).length :=
    List.length_pos.mpr hne
  unfold controllerSyncStep
  rw [if_pos hs, if_pos hl]
  exact ⟨rfl, rfl, rfl, rfl⟩

/-- Witness for `persistFailureSwallowed` at a concrete result with one
`create_task` proposal and a failing insert. -/
theorem persistFailureSwallowed_witness :
    (controllerSyncStep "u" TaskSource.notion "m" 1
        { success := true, proposalsCount := 1, proposalBatchId := some "b",
          error := none,
          proposals := some
            [{ id := "p1", type := ProposalType.createTask, title := "t",
               description := "d", evidence := [], rationale := "r",
               whatWillHappen := "w", owner := none, deadline := none,
               priority := TaskPriority.low, status := none }] }
        false []).2 = [] :=
  (persistFailureSwallowed "u" TaskSource.notion "m" 1
    { success := true, proposalsCount := 1, proposalBatchId := some "b",
      error := none,
      proposals := some
        [{ id := "p1", type := ProposalType.createTask, title := "t",
           description := "d", evidence := [], rationale := "r",
           whatWillHappen := "w", owner := none, deadline := none,
           priority := TaskPriority.low, status := none }] }
    [] rfl (by decide)).2.2.2

/-! ## GitHubService: Integration records, installation-token fallback, sync

`GitHubService.syncAndExtractContent` and `getIssues` fetch an
effective access token and then run the fetch-filter-simplify
pipeline.  The external calls are parameters: `mint` is
`getInstallationAccessToken` (`.error` = the JWT signing threw, the
network call failed, or the response was non-2xx), `fetchIssues` is
the issues fetch (`.ok` carries the parsed issue list, with a non-array
body already normalized to `[]` by the source's `Array.isArray` guard;
`.error` = fetch threw or response non-2xx), and `whoami` is
`getUserInfo` returning the authenticated login. -/

/-- The `bot` jsonb payload of an Integration row. -/
structure BotData where
  id : Option String
  tag : Option String
deriving DecidableEq

/-- A row of the `integrations` table (`Integration` of the drizzle
schema); `type` is the provider tag column. -/
structure Integration where
  id : String
  userId : String
  type : String
  accessToken : String
  scope : Option String
  bot : Option BotData
  workspaceId : Option String
  workspaceName : Option String
deriving DecidableEq

/-- The source's extraction of the installation id from the stored
`bot` jsonb: `typeof botData === 'object' && botData !== null && 'id'
in botData ? botData.id : null`. -/
def installationIdOf (integ : Integration) : Option String :=
  match integ.bot with
  | some b => b.id
  | none => none

/-- The effective-token step shared by `getIssues`, `getRepositories`
and `syncAndExtractContent`: when the integration carries a truthy
installation id other than `'none'`, attempt to mint an installation
token; on any failure, log and fall back to the stored user token.
JavaScript truthiness makes an empty-string id skip the attempt. -/
def effectiveToken (integ : Integration) (mint : String → Except String String) : String :=
  match installationIdOf integ with
  | some iid =>
    if iid ≠ "" ∧ iid ≠ "none" then
      match mint iid with
      | Except.ok t => t
      | Except.error _ => integ.accessToken
    else integ.accessToken
  | none => integ.accessToken

/-- A raw GitHub issue as duck-typed by the source (`Record<string,
unknown>` accesses); `assignees` carries the assignee logins and may be
absent. -/
structure RawIssue where
  number : Nat
  title : String
  body : Option String
  htmlUrl : String
  repositoryFullName : Option String
  assignees : Option (List String)
  labels : Option (List String)
  createdAt : String
  updatedAt : String
  comments : Nat
deriving DecidableEq

/-- The simplified issue shape the source builds. -/
structure SimplifiedIssue where
  number : Nat
  title : String
  body : Option String
  url : String
  repository : String
  assignee : Option String
  labels : List String
  createdAt : String
  updatedAt : String
  comments : Nat
deriving DecidableEq

/-- `assignees && assignees.some(a => a.login === userLogin)`. -/
def issueAssignedTo (login : String) (i : RawIssue) : Bool :=
  match i.assignees with
  | some logins => logins.contains login
  | none => false

/-- The per-issue simplification, including the JavaScript falsy
coercions of the source: `(body as string | null) || null` nulls an
empty body, `repository?.full_name ? full_name : 'unknown'` and
`assignees[0]?.login || null` treat empty strings as absent. -/
def simplifyIssue (i : RawIssue) : SimplifiedIssue :=
  { number := i.number
    title := i.title
    body := match i.body with
      | some b => if b = "" then none else some b
      | none => none
    url := i.htmlUrl
    repository := match i.repositoryFullName with
      | some r => if r = "" then "unknown" else r
      | none => "unknown"
    assignee := match i.assignees with
      | some (a :: _) => if a = "" then none else some a
      | _ => none
    labels := i.labels.getD []
    createdAt := i.createdAt
    updatedAt := i.updatedAt
    comments := i.comments }

/-- Data payload of a successful `syncAndExtractContent`. -/
structure SyncIssuesData where
  totalIssues : Nat
  issues : List SimplifiedIssue
deriving DecidableEq

/-- Data payload of a successful `getIssues`. -/
structure IssuesData where
  issues : List SimplifiedIssue
deriving DecidableEq

/-- The body of `syncAndExtractContent` after the effective token is
fixed: fetch the open issues, look up the authenticated login, filter
to issues assigned to it and simplify.  Any throw inside the body is
caught by the outer catch and answered as a 500-shaped structured
result. -/
def githubSyncBody (accessToken : String)
    (fetchIssues : String → Except String (List RawIssue))
    (whoami : String → Except String String) : ApiResponse SyncIssuesData :=
  match fetchIssues accessToken with
  | Except.error _ => ⟨500, false, "Error syncing GitHub content", none⟩
  | Except.ok rawIssues =>
    match whoami accessToken with
    | Except.error _ => ⟨500, false, "Error syncing GitHub content", none⟩
    | Except.ok userLogin =>
      let simplified := (rawIssues.filter (issueAssignedTo userLogin)).map simplifyIssue
      ⟨200, true, "GitHub content synced successfully",
       some ⟨simplified.length, simplified⟩⟩

/-- `GitHubService.syncAndExtractContent`: a missing integration is
answered as a 404-shaped structured result (no exception); otherwise
the pipeline runs at the effective token. -/
def githubSyncAndExtractContent (integration : Option Integration)
    (mint : String → Except String String)
    (fetchIssues : String → Except String (List RawIssue))
    (whoami : String → Except String String) : ApiResponse SyncIssuesData :=
  match integration with
  | none => ⟨404, false, "No GitHub integration found", none⟩
  | some integ => githubSyncBody (effectiveToken integ mint) fetchIssues whoami

/-- The body of `getIssues` after the effective token is fixed. -/
def githubGetIssuesBody (accessToken : String)
    (fetchIssues : String → Except String (List RawIssue))
    (whoami : String → Except String String) : ApiResponse IssuesData :=
  match fetchIssues accessToken with
  | Except.error _ => ⟨500, false, "Error fetching issues", none⟩
  | Except.ok rawIssues =>
    match whoami accessToken with
    | Except.error _ => ⟨500, false, "Error fetching issues", none⟩
    | Except.ok userLogin =>
      let simplified := (rawIssues.filter (issueAssignedTo userLogin)).map simplifyIssue
      ⟨200, true, "Issues retrieved and filtered successfully", some ⟨simplified⟩⟩

/-- `GitHubService.getIssues`. -/
def githubGetIssues (integration : Option Integration)
    (mint : String → Except String String)
    (fetchIssues : String → Except String (List RawIssue))
    (whoami : String → Except String String) : ApiResponse IssuesData :=
  match integration with
  | none => ⟨404, false, "No GitHub integration found", none⟩
  | some integ => githubGetIssuesBody (effectiveToken integ mint) fetchIssues whoami

/-! ## Installation-token fallback and not-found theorems (claims C4, C9) -/

/-- Claim C4: for every stored integration carrying an installation id,
if minting a fresh installation token fails for any reason, the
effective token is the stored long-lived user token and both the sync
and the fetch operation behave exactly as the pipeline run at the
stored token — the minting failure is never observable to the
caller. -/
theorem installationTokenFallback (integ : Integration) (iid e : String)
    (mint : String → Except String String)
    (fetchIssues : String → Except String (List RawIssue))
    (whoami : String → Except String String)
    (hiid : installationIdOf integ = some iid)
    (hne : iid ≠ "") (hnone : iid ≠ "none")
    (hfail : mint iid = Except.error e) :
    effectiveToken integ mint = integ.accessToken
    ∧ githubSyncAndExtractContent (some integ) mint fetchIssues whoami
        = githubSyncBody integ.accessToken fetchIssues whoami
    ∧ githubGetIssues (some integ) mint fetchIssues whoami
        = githubGetIssuesBody integ.accessToken fetchIssues whoami := by
  have htok : effectiveToken integ mint = integ.accessToken := by
    unfold effectiveToken
    rw [hiid]
    simp only [ne_eq, hne, hnone, not_false_iff, and_self, if_true, hfail]
  refine ⟨htok, ?_, ?_⟩
  · show githubSyncBody (effectiveToken integ mint) fetchIssues whoami
      = githubSyncBody integ.accessToken fetchIssues whoami
    rw [htok]
  · show githubGetIssuesBody (effectiveToken integ mint) fetchIssues whoami
      = githubGetIssuesBody integ.accessToken fetchIssues whoami
    rw [htok]

/-- Witness for `installationTokenFallback` at a concrete integration
with installation id `"123"` and a signing failure. -/
theorem installationTokenFallback_witness :
    effectiveToken
      { id := "i1", userId := "u1", type := "github", accessToken := "tok_user",
        scope := none, bot := some { id := some "123", tag := some "github_app" },
        workspaceId := none, workspaceName := none }
      (fun _ => Except.error "Failed to generate GitHub App JWT") = "tok_user" :=
  (installationTokenFallback
    { id := "i1", userId := "u1", type := "github", accessToken := "tok_user",
      scope := none, bot := some { id := some "123", tag := some "github_app" },
      workspaceId := none, workspaceName := none }
    "123" "Failed to generate GitHub App JWT"
    (fun _ => Except.error "Failed to generate GitHub App JWT")
    (fun _ => Except.ok []) (fun _ => Except.ok "me")
    rfl (by decide) (by decide) rfl).1

/-- Claim C9: for every user with no stored integration, the sync
returns a structured result with `success:false` and code 404 and the
not-found message, without throwing (the embedding is a total function
returning this value for every behavior of the external calls). -/
theorem syncNoIntegrationNotFound (mint : String → Except String String)
    (fetchIssues : String → Except String (List RawIssue))
    (whoami : String → Except String String) :
    githubSyncAndExtractContent none mint fetchIssues whoami
      = ⟨404, false, "No GitHub integration found", none⟩ := rfl

/-! ## saveIntegration: the Integration upsert (claim C6)

Both providers' `saveIntegration` select the first row matching
(userId, provider) — `.where(and(eq userId, eq type)).limit(1)` — and
either update that row by id (on re-authorization) or insert a fresh
row.  The integrations table is a list of rows in insertion order;
`newId` is the database-generated uuid of a fresh insert. -/

/-- `select ... where userId and type ... limit 1`. -/
def findIntegration (store : List Integration) (uid provider : String) : Option Integration :=
  (store.filter (fun r => r.userId == uid && r.type == provider)).head?

/-- The `bot` value written by `GitHubService.saveIntegration`:
`installationId && installationId !== 'none' ? id/github_app :
personal_token`. -/
def githubBotValue (installationId : String) : Option BotData :=
  if installationId ≠ "" ∧ installationId ≠ "none" then
    some { id := some installationId, tag := some "github_app" }
  else
    some { id := none, tag := some "personal_token" }

/-- `GitHubService.saveIntegration`: update the existing (user, github)
row when one exists, insert a new row only when none exists. -/
def githubSaveIntegration (store : List Integration) (newId uid accessToken
    username ghUserId installationId : String) : List Integration :=
  match findIntegration store uid "github" with
  | some existing =>
    store.map (fun r =>
      if r.id == existing.id then
        { r with accessToken := accessToken, workspaceId := some ghUserId,
                 workspaceName := some username, bot := githubBotValue installationId }
      else r)
  | none =>
    store ++ [{ id := newId, userId := uid, type := "github", accessToken := accessToken,
                scope := none, bot := githubBotValue installationId,
                workspaceId := some ghUserId, workspaceName := some username }]

/-- `NotionService.saveIntegration`: same upsert pattern for the
notion provider; the bot jsonb stores the bot id. -/
def notionSaveIntegration (store : List Integration) (newId uid accessToken
    workspaceId workspaceName botId : String) : List Integration :=
  match findIntegration store uid "notion" with
  | some existing =>
    store.map (fun r =>
      if r.id == existing.id then
        { r with accessToken := accessToken, workspaceId := some workspaceId,
                 workspaceName := some workspaceName, bot := some { id := some botId, tag := none } }
      else r)
  | none =>
    store ++ [{ id := newId, userId := uid, type := "notion", accessToken := accessToken,
                scope := none, bot := some { id := some botId, tag := none },
                workspaceId := some workspaceId, workspaceName := some workspaceName }]

/-- Number of rows stored for one (user, provider) pair. -/
def pairCount (store : List Integration) (uid provider : String) : Nat :=
  (store.filter (fun r => r.userId == uid && r.type == provider)).length

/-- The uniqueness invariant: at most one Integration row per
(user, provider) pair. -/
def AtMostOnePerPair (store : List Integration) : Prop :=
  ∀ uid provider, pairCount store uid provider ≤ 1

theorem pairCount_map {f : Integration → Integration}
    (hf : ∀ r, (f r).userId = r.userId ∧ (f r).type = r.type) :
    ∀ (store : List Integration) (u t : String),
      pairCount (store.map f) u t = pairCount store u t := by
  intro store u t
  induction store with
  | nil => rfl
  | cons r rs ih =>
    unfold pairCount at ih ⊢
    simp only [List.map_cons, List.filter_cons, (hf r).1, (hf r).2]
    by_cases hc : (r.userId == u && r.type == t) = true
    · rw [if_pos hc, if_pos hc]
      simp only [List.length_cons, ih]
    · rw [if_neg hc, if_neg hc]
      exact ih

theorem pairCount_append_single (store : List Integration) (row : Integration)
    (u t : String) :
    pairCount (store ++ [row]) u t
      = pairCount store u t + if (row.userId == u && row.type == t) = true then 1 else 0 := by
  unfold pairCount
  rw [List.filter_append]
  rw [List.length_append]
  congr 1
  by_cases hc : (row.userId == u && row.type == t) = true
  · simp [List.filter_cons, hc]
  · simp [List.filter_cons, hc]

theorem findIntegration_none_pairCount {store : List Integration} {uid provider : String}
    (h : findIntegration store uid provider = none) :
    pairCount store uid provider = 0 := by
  unfold findIntegration at h
  unfold pairCount
  cases hf : store.filter (fun r => r.userId == uid && r.type == provider) with
  | nil => rfl
  | cons a as =>
    rw [hf] at h
    simp at h

/-- The updated row of an upsert keeps its userId and provider tag, so
a conditional in-place update preserves every pair count. -/
theorem upsertUpdate_preserves (existing : Integration)
    (g : Integration → Integration)
    (hg : ∀ r, (g r).userId = r.userId ∧ (g r).type = r.type)
    (store : List Integration) :
    AtMostOnePerPair store →
      AtMostOnePerPair (store.map (fun r => if r.id == existing.id then g r else r)) := by
  intro hinv u t
  rw [pairCount_map (f := fun r => if r.id == existing.id then g r else r)]
  · exact hinv u t
  · intro r
    by_cases hc : (r.id == existing.id) = true
    · simp only [hc, if_true]
      exact hg r
    · simp only [hc, if_false]
      exact ⟨rfl, rfl⟩

/-- Claim C6: for every store satisfying the at-most-one invariant,
`saveIntegration` (both providers) preserves it — it updates the
existing (user, provider) row in place when one exists (keeping the
row count) and inserts a fresh row only when none exists — so repeated
re-authorizations keep at most one Integration row per
(user, provider). -/
theorem saveIntegrationUpsertUnique
    (store : List Integration) (hinv : AtMostOnePerPair store)
    (newId uid accessToken username ghUserId installationId : String)
    (workspaceId workspaceName botId : String) :
    AtMostOnePerPair
      (githubSaveIntegration store newId uid accessToken username ghUserId installationId)
    ∧ AtMostOnePerPair
      (notionSaveIntegration store newId uid accessToken workspaceId workspaceName botId)
    ∧ (githubSaveIntegration store newId uid accessToken username ghUserId
        installationId).length
        = store.length + (if findIntegration store uid "github" = none then 1 else 0)
    ∧ (notionSaveIntegration store newId uid accessToken workspaceId workspaceName
        botId).length
        = store.length + (if findIntegration store uid "notion" = none then 1 else 0) := by
  have hgithub : AtMostOnePerPair
      (githubSaveIntegration store newId uid accessToken username ghUserId installationId) := by
    cases hfind : findIntegration store uid "github" with
    | some existing =>
      unfold githubSaveIntegration
      rw [hfind]
      exact upsertUpdate_preserves existing
        (fun r => { r with accessToken := accessToken, workspaceId := some ghUserId,
                           workspaceName := some username,
                           bot := githubBotValue installationId })
        (fun _ => ⟨rfl, rfl⟩) store hinv
    | none =>
      unfold githubSaveIntegration
      rw [hfind]
      intro u t
      rw [pairCount_append_single]
      by_cases hc : (u = uid ∧ t = "github")
      · obtain ⟨rfl, rfl⟩ := hc
        have h0 := findIntegration_none_pairCount hfind
        simp only [h0]
        split <;> omega
      · have hrow : ¬ (((⟨newId, uid, "github", accessToken, none,
            githubBotValue installationId, some ghUserId, some username⟩ :
            Integration).userId == u
            && (⟨newId, uid, "github", accessToken, none, githubBotValue installationId,
                some ghUserId, some username⟩ : Integration).type == t) = true) := by
          intro hand
          rw [Bool.and_eq_true, beq_iff_eq, beq_iff_eq] at hand
          exact hc ⟨hand.1.symm, hand.2.symm⟩
        rw [if_neg hrow]
        have := hinv u t
        omega
  have hnotion : AtMostOnePerPair
      (notionSaveIntegration store newId uid accessToken workspaceId workspaceName botId) := by
    cases hfind : findIntegration store uid "notion" with
    | some existing =>
      unfold notionSaveIntegration
      rw [hfind]
      exact upsertUpdate_preserves existing
        (fun r => { r with accessToken := accessToken, workspaceId := some workspaceId,
                           workspaceName := some workspaceName,
                           bot := some { id := some botId, tag := none } })
        (fun _ => ⟨rfl, rfl⟩) store hinv
    | none =>
      unfold notionSaveIntegration
      rw [hfind]
      intro u t
      rw [pairCount_append_single]
      by_cases hc : (u = uid ∧ t = "notion")
      · obtain ⟨rfl, rfl⟩ := hc
        have h0 := findIntegration_none_pairCount hfind
        simp only [h0]
        split <;> omega
      · have hrow : ¬ (((⟨newId, uid, "notion", accessToken, none,
            some ⟨some botId, none⟩, some workspaceId, some workspaceName⟩ :
            Integration).userId == u
            && (⟨newId, uid, "notion", accessToken, none, some ⟨some botId, none⟩,
                some workspaceId, some workspaceName⟩ : Integration).type == t) = true) := by
          intro hand
          rw [Bool.and_eq_true, beq_iff_eq, beq_iff_eq] at hand
          exact hc ⟨hand.1.symm, hand.2.symm⟩
        rw [if_neg hrow]
        have := hinv u t
        omega
  refine ⟨hgithub, hnotion, ?_, ?_⟩
  · cases hfind : findIntegration store uid "github" with
    | some existing =>
      unfold githubSaveIntegration
      rw [hfind]
      simp [List.length_map]
    | none =>
      unfold githubSaveIntegration
      rw [hfind]
      simp
  · cases hfind : findIntegration store uid "notion" with
    | some existing =>
      unfold notionSaveIntegration
      rw [hfind]
      simp [List.length_map]
    | none =>
      unfold notionSaveIntegration
      rw [hfind]
      simp

/-- Witness for `saveIntegrationUpsertUnique`: saving into an empty
store (the invariant holds trivially) inserts exactly one github row. -/
theorem saveIntegrationUpsertUnique_witness :
    (githubSaveIntegration [] "id1" "u1" "tok" "alice" "42" "123").length = 1 := by
  have h := (saveIntegrationUpsertUnique [] (fun u t => by simp [pairCount])
    "id1" "u1" "tok" "alice" "42" "123" "w" "wn" "b").2.2.1
  simpa using h

end Operia
